import Mathlib

/-!
Verification of the search-and-score optimization engine of
`bigmler/analyze/k_fold_cv.py`: the command ledger used for resumable runs
(`retrieve_subcommands` / `different_command` and the resume block shared by
`create_kfold_evaluations` and `create_node_th_evaluations`), the scorer
(`kfold_evaluate` / `node_threshold_evaluate`), the feature best-first search
(`best_first_search` with `find_max_state` / `expand_state`) and the
node-threshold sweep (`best_node_threshold`).

Numbers are modelled as exact rationals; the only float special value the
code relies on is negative float infinity, modelled by an explicit `PyFloat` type.
The file is organised as: all definitions first, then all theorems.
-/

/-- Python float values used by the engine: either `-inf` or a finite value
(modelled as an exact rational). -/
inductive PyFloat where
  | ninf : PyFloat
  | val : ℚ → PyFloat
deriving DecidableEq, Repr

/-- Python `x > y` on `PyFloat` (no NaNs occur in the engine). -/
def pfGt : PyFloat → PyFloat → Bool
  | .ninf, _ => false
  | .val _, .ninf => true
  | .val a, .val b => decide (b < a)

/-- Python `x <= y` on `PyFloat`: the order is total, so `x <= y` iff not `x > y`. -/
def pfLe (x y : PyFloat) : Bool := ! pfGt x y

/-- Python `x - e` for a finite rational `e` (`-inf - e = -inf`). -/
def pfSub (x : PyFloat) (e : ℚ) : PyFloat :=
  match x with
  | .ninf => .ninf
  | .val a => .val (a - e)

/-- Python `y + e` for a finite rational `e` (`-inf + e = -inf`). -/
def pfAdd (y : PyFloat) (e : ℚ) : PyFloat :=
  match y with
  | .ninf => .ninf
  | .val a => .val (a + e)

/-- The margin `EPSILON = 0.001`: difference needed to become the new best state. -/
def EPSILON : ℚ := 1 / 1000

/-! ## Command canonicalization and `different_command`

`rebuild_command` joins the argument list with blanks and appends a newline;
commands are compared as those strings. `different_command` (lines 130-141)
first compares the strings for equality; if they differ and the current
command contains the substring `name=BigMLer_`, it strips every occurrence
of the regex `name=Bigmler_[^\s]+` (note the different capitalisation in the
source) from both strings and returns the result of comparing the stripped
strings for *equality*; otherwise it returns `False`. -/

/-- Python regex `\s` on the ASCII characters that can occur in a command. -/
def wsChar (c : Char) : Bool :=
  c = ' ' || c = '\t' || c = '\n' || c = '\r' || c = '\x0b' || c = '\x0c'

/-- The literal part of the regex `name=Bigmler_[^\s]+` compiled at line 137. -/
def genName : List Char := "name=Bigmler_".data

/-- The substring tested for at line 134: whether name=BigMLer_ occurs
in `command`. -/
def genNameMarker : List Char := "name=BigMLer_".data

/-- Python `marker in s` (substring containment) for the generated-name marker. -/
def hasMarker : List Char → Bool
  | [] => false
  | c :: cs => genNameMarker.isPrefixOf (c :: cs) || hasMarker cs

/-- Drop the maximal leading run of non-whitespace characters
(the `[^\s]+` part of the regex, greedy). -/
def dropRun : List Char → List Char
  | [] => []
  | c :: cs => if wsChar c then c :: cs else dropRun cs

/-- Whether the list starts with a non-whitespace character (so `[^\s]+` can
match at least one character). -/
def headNonWs : List Char → Bool
  | [] => false
  | c :: _ => ! wsChar c

/-- The scan performed by re.sub with the pattern name=Bigmler_[^\s]+ and
an empty replacement: walk
left to right, removing each non-overlapping match of the pattern.  The
recursion is made structural on a fuel argument; every step consumes at
least one character of the text, so `length` units of fuel always suffice
(`stripNameGen` below instantiates the fuel that way). -/
def stripNameAux : ℕ → List Char → List Char
  | 0, _ => []
  | _ + 1, [] => []
  | fuel + 1, c :: cs =>
    if genName.isPrefixOf (c :: cs) &&
       headNonWs ((c :: cs).drop genName.length) then
      stripNameAux fuel (dropRun ((c :: cs).drop genName.length))
    else
      c :: stripNameAux fuel cs

/-- Removal of every match of the pattern name=Bigmler_[^\s]+ from the
character list of a command string. -/
def stripNameGen (l : List Char) : List Char := stripNameAux l.length l

/-- The predicate `different_command(next_command, command)` from lines
130-141, verbatim:
equal strings are "not different"; otherwise, when the marker substring is
present in `command`, the function returns whether the *stripped* strings are
equal; otherwise it returns `False`. -/
def different_command (next_command command : String) : Bool :=
  if next_command = command then false
  else if hasMarker command.data then
    decide (stripNameGen next_command.data = stripNameGen command.data)
  else false

/-- Modelled from the spec: the comparison the spec ascribes to
`different_command` - two invocations are "the same" command iff, after
stripping the random suffix of any generated default name, their strings
match;
commands that differ anywhere else are different. -/
def specDifferent (next_command command : String) : Bool :=
  decide (stripNameGen next_command.data ≠ stripNameGen command.data)

/-! ## The execution ledger

`set_subcommand_file` / `retrieve_subcommands` (lines 101-120) read the
ledger file into `subcommand_list` and reverse it, so `pop()` (from the end)
yields entries oldest-first.  Around every oracle invocation the engine runs
the block shared by `create_kfold_datasets` (lines 307-318),
`create_kfold_evaluations` (lines 392-403) and `create_node_th_evaluations`
(lines 730-741):

    if resume:
        next_command = subcommand_list.pop()
        if different_command(next_command, command):
            resume = False
            u.sys_log_message(command, log_file=subcommand_file)
            main_dispatcher(args=command_args)
        elif not subcommand_list:
            main_dispatcher(args=[main, --resume])   # catch-up call
            resume = False
    else:
        u.sys_log_message(command, log_file=subcommand_file)
        main_dispatcher(args=command_args)

`Ledger` captures this state: `resume`, the reversed pending list, the lines
appended to the ledger file (`written`), the number of fresh command
executions (`fresh`), the number of catch-up `main --resume`
dispatches (`catchups`) and whether a `pop()` on an empty list occurred
(`err`, an `IndexError` in Python). -/
structure Ledger where
  resume : Bool
  pending : List String
  written : List String
  fresh : ℕ
  catchups : ℕ
  err : Bool
deriving DecidableEq, Repr

/-- One execution of the resume block above for one canonical `command`. -/
def processCommand (led : Ledger) (command : String) : Ledger :=
  if led.resume then
    match led.pending.getLast? with
    | none => { led with err := true }
    | some next_command =>
      let pending' := led.pending.dropLast
      if different_command next_command command then
        { led with resume := false, pending := pending',
                   written := led.written ++ [command], fresh := led.fresh + 1 }
      else if pending' = [] then
        { led with resume := false, pending := pending',
                   catchups := led.catchups + 1 }
      else
        { led with pending := pending' }
  else
    { led with written := led.written ++ [command], fresh := led.fresh + 1 }

/-- The ledger evolution over a sequence of canonical commands, in the order
the engine issues them. -/
def processList (led : Ledger) (cmds : List String) : Ledger :=
  cmds.foldl processCommand led

/-- The ledger state of a fresh (non-resuming) run. -/
def freshLedger : Ledger :=
  { resume := false, pending := [], written := [], fresh := 0,
    catchups := 0, err := false }

/-- The ledger state after `retrieve_subcommands` on a ledger file whose
lines are `written` (oldest first): the list is reversed so that `pop()`
consumes entries oldest-first. -/
def resumeLedger (written : List String) : Ledger :=
  { resume := true, pending := written.reverse, written := [], fresh := 0,
    catchups := 0, err := false }

/-! ## The scorer

`kfold_evaluate` (lines 593-606) and `node_threshold_evaluate`
(lines 696-708) share the metric-resolution and scoring logic; after
`extract_evaluation_info` has selected the (per-category or aggregate)
mapping, both do:

    avg_metric = AVG_PREFIX % metric
    metric_literal = metric
    if not avg_metric in evaluation:
        avg_metric = AVG_PREFIX % R_SQUARED
        metric_literal = R_SQUARED
        if not avg_metric in evaluation:
            sys.exit(...)
    invert = -1 if metric in MINIMIZE_OPTIONS else 1
    return (invert * (evaluation[avg_metric] - invert * penalty * complexity),
            evaluation[avg_metric], metric_literal, resume)

where `complexity` is `len(args.model_fields.split(args.args_separator))`
for `kfold_evaluate` and `node_threshold` for `node_threshold_evaluate`.
The evaluation result is modelled as an association list (a JSON mapping);
`sys.exit` is modelled as `none`. -/

/-- The averaged field name `AVG_PREFIX % metric`, i.e. `average_` followed
by the metric name. -/
def avgName (metric : String) : String := "average_" ++ metric

/-- The constant `R_SQUARED`. -/
def R_SQUARED : String := "r_squared"

/-- Python `evaluation[key]` / `key in evaluation` on the JSON mapping. -/
def lookupEval (evaluation : List (String × ℚ)) (key : String) : Option ℚ :=
  evaluation.lookup key

/-- The metric-resolution part of both scorers: the averaged form of the
requested metric, else the averaged R-squared (reported as `r_squared`),
else `none` (a fatal `sys.exit`).  Returns `(metric_literal, value)`. -/
def resolveMetric (evaluation : List (String × ℚ)) (metric : String) :
    Option (String × ℚ) :=
  match lookupEval evaluation (avgName metric) with
  | some v => some (metric, v)
  | none =>
    match lookupEval evaluation (avgName R_SQUARED) with
    | some v => some (R_SQUARED, v)
    | none => none

/-- The shared scorer body: note `invert` is computed from `metric` (the
*requested* metric), exactly as at lines 601 and 704, not from the resolved
`metric_literal`.  Returns `(score, raw averaged value, metric_literal)`.
`minimize` stands for `MINIMIZE_OPTIONS`, imported from
`bigmler.options.analyze` (not among the sources), so it is a parameter. -/
def evaluateScore (minimize : List String) (evaluation : List (String × ℚ))
    (metric : String) (penalty complexity : ℚ) : Option (ℚ × ℚ × String) :=
  match resolveMetric evaluation metric with
  | none => none
  | some lv =>
    let invert : ℚ := if metric ∈ minimize then -1 else 1
    some (invert * (lv.2 - invert * penalty * complexity), lv.2, lv.1)

/-- The scoring part of `kfold_evaluate` (lines 593-606): complexity is the
number of model fields, `len(args.model_fields.split(args.args_separator))`. -/
def kfold_evaluate (minimize : List String) (evaluation : List (String × ℚ))
    (metric : String) (penalty : ℚ) (model_fields args_separator : String) :
    Option (ℚ × ℚ × String) :=
  evaluateScore minimize evaluation metric penalty
    ((model_fields.splitOn args_separator).length : ℚ)

/-- The scoring part of `node_threshold_evaluate` (lines 696-708):
complexity is the node threshold itself. -/
def node_threshold_evaluate (minimize : List String)
    (evaluation : List (String × ℚ)) (metric : String) (penalty : ℚ)
    (node_threshold : ℤ) : Option (ℚ × ℚ × String) :=
  evaluateScore minimize evaluation metric penalty (node_threshold : ℚ)

/-- Modelled from the spec: `MINIMIZE_OPTIONS` lives in
`bigmler/options/analyze.py`, which is not among the sources; the spec
describes it as the set of metrics for which lower raw values are better,
"e.g. an error measure".  A one-element instance suffices for the concrete
evaluations below. -/
def MINIMIZE_OPTIONS : List String := ["mean_squared_error"]

/-- Modelled from the spec: the claimed scoring formula with `invert`
determined by the *resolved* metric name (`metric_literal`), for comparison
with `evaluateScore` from the source. -/
def specScore (minimize : List String) (metric_literal : String)
    (raw penalty complexity : ℚ) : ℚ :=
  let invert : ℚ := if metric_literal ∈ minimize then -1 else 1
  invert * (raw - invert * penalty * complexity)

/-! ## Feature best-first search (`best_first_search`, lines 437-561)

A search state is the triple `(state, score, metric_value)` appended to
`open_list` / `closed_list`.  The oracle (the whole
`create_kfold_evaluations` pipeline feeding `kfold_evaluate`, verified
separately above) is abstracted as a function from the boolean feature
vector and the current metric name to `(score, metric_value,
metric_literal)`; the canonical command logged for the evaluation is a
function of the evaluation counter and the feature vector. -/

/-- A `(state, score, metric_value)` triple as stored in
`open_list` / `closed_list`. -/
structure ScoredState where
  state : List Bool
  score : PyFloat
  metricValue : PyFloat
deriving DecidableEq, Repr

/-- The state vectors of a list of scored states
(`[state for state, _, _ in l]`). -/
def stlist (l : List ScoredState) : List (List Bool) :=
  l.map ScoredState.state

/-- The fold of `find_max_state` (lines 414-422): starting from
`(None, -inf)`, take each element whose score beats the running maximum, or
the first element when none has been chosen and the running maximum equals
its score (`score > max_score or max_state is None and max_score == score`,
with Python precedence `or (and)`). -/
def findMaxFold : List ScoredState → Option ScoredState → PyFloat →
    Option ScoredState × PyFloat
  | [], best, bestScore => (best, bestScore)
  | ss :: rest, best, bestScore =>
    if pfGt ss.score bestScore || (best.isNone && bestScore == ss.score) then
      findMaxFold rest (some ss) ss.score
    else
      findMaxFold rest best bestScore

/-- The selection `find_max_state(states_list)`: the returned triple,
`none` when the list
is empty (the loop guard keeps `open_list` non-empty whenever it is called). -/
def find_max_state (states_list : List ScoredState) : Option ScoredState :=
  (findMaxFold states_list none .ninf).1

/-- The neighbor generator `expand_state(parent)` (lines 425-434): all
single-bit flips. -/
def expand_state (parent : List Bool) : List (List Bool) :=
  (List.range parent.length).map (fun i => parent.set i (! parent.getD i false))

/-- The search parameters: the abstracted oracle `evF` (feature vector and
current metric name to `(score, metric_value, metric_literal)` as returned
by `kfold_evaluate`), the canonical command `cmdOf` for evaluation number
`counter` of a feature vector, and `staleness`. -/
structure SearchCfg where
  evF : List Bool → String → ℚ × ℚ × String
  cmdOf : ℕ → List Bool → String
  staleness : ℕ

/-- The loop state of `best_first_search`: `open_list`, `closed_list`, the
best triple, `best_unchanged_count`, the evaluation `counter` and the
current `metric` name (reassigned from each `kfold_evaluate` return). -/
structure PState where
  openList : List ScoredState
  closedList : List ScoredState
  best : ScoredState
  bestUnchanged : ℕ
  counter : ℕ
  metric : String
deriving DecidableEq, Repr

/-- The `for child in children` loop (lines 524-543): a child present by
value in either list is skipped; otherwise the counter is incremented, the
oracle is called, the metric name updated, and the scored child appended to
`open_list`.  Returns the new open list, counter, metric, and the
`(counter, child)` pairs that were actually evaluated. -/
def expandLoop (cfg : SearchCfg) : List (List Bool) → List ScoredState →
    List ScoredState → ℕ → String →
    List ScoredState × ℕ × String × List (ℕ × List Bool)
  | [], openL, _, counter, metric => (openL, counter, metric, [])
  | child :: rest, openL, closedL, counter, metric =>
    if child ∈ stlist openL ∨ child ∈ stlist closedL then
      expandLoop cfg rest openL closedL counter metric
    else
      let out := cfg.evF child metric
      let r := expandLoop cfg rest
        (openL ++ [⟨child, .val out.1, .val out.2.1⟩]) closedL
        (counter + 1) out.2.2
      (r.1, r.2.1, r.2.2.1, (counter + 1, child) :: r.2.2.2)

/-- One iteration of the `while` loop at lines 489-543: select the maximum
of `open_list`, move it to `closed_list`, update the best triple when
`(score - EPSILON) > best_score` (else increment the staleness counter),
then expand.  Also returns the `(counter, child)` pairs evaluated.  The
`none` branch is unreachable under the loop guard. -/
def pstepFull (cfg : SearchCfg) (p : PState) : PState × List (ℕ × List Bool) :=
  match find_max_state p.openList with
  | none => (p, [])
  | some fm =>
    let closed₁ := p.closedList ++ [fm]
    let open₁ := p.openList.erase fm
    let bu : ScoredState × ℕ :=
      if pfGt (pfSub fm.score EPSILON) p.best.score then (fm, 0)
      else (p.best, p.bestUnchanged + 1)
    let e := expandLoop cfg (expand_state fm.state) open₁ closed₁
      p.counter p.metric
    (⟨e.1, closed₁, bu.1, bu.2, e.2.1, e.2.2.1⟩, e.2.2.2)

/-- The new loop state after one iteration. -/
def pstep (cfg : SearchCfg) (p : PState) : PState := (pstepFull cfg p).1

/-- The canonical commands logged by one iteration, in issue order. -/
def stepCmds (cfg : SearchCfg) (p : PState) : List String :=
  (pstepFull cfg p).2.map (fun kc => cfg.cmdOf kc.1 kc.2)

/-- The loop guard `best_unchanged_count < staleness and open_list`. -/
def searchGuard (cfg : SearchCfg) (p : PState) : Bool :=
  decide (p.bestUnchanged < cfg.staleness) && ! p.openList.isEmpty

/-- The loop of `best_first_search`, fuel-bounded: each unit of fuel allows
one iteration; once the guard fails the state is returned unchanged. -/
def runP (cfg : SearchCfg) : ℕ → PState → PState
  | 0, p => p
  | fuel + 1, p =>
    if searchGuard cfg p then runP cfg fuel (pstep cfg p) else p

/-- The canonical commands issued by a `runP` run, in issue order. -/
def traceP (cfg : SearchCfg) : ℕ → PState → List String
  | 0, _ => []
  | fuel + 1, p =>
    if searchGuard cfg p then
      stepCmds cfg p ++ traceP cfg fuel (pstep cfg p)
    else []

/-- A full feature-search run: the loop state, and the ledger after
processing every issued command in order through the resume block. -/
def runSearch (cfg : SearchCfg) (fuel : ℕ) (p : PState) (led : Ledger) :
    PState × Ledger :=
  (runP cfg fuel p, processList led (traceP cfg fuel p))

/-- The initial loop state (lines 483-488): `open_list` holds the all-`False`
vector scored `(-inf, -inf)`, `closed_list` is empty, the best triple is that
single element, `best_unchanged_count = 0`, and `metric = args.optimize`. -/
def initSearch (nFields : ℕ) (metric : String) : PState :=
  { openList := [⟨List.replicate nFields false, .ninf, .ninf⟩],
    closedList := [],
    best := ⟨List.replicate nFields false, .ninf, .ninf⟩,
    bestUnchanged := 0, counter := 0, metric := metric }

/-! ## Node-threshold sweep (`best_node_threshold`, lines 609-680)

The oracle (the `create_node_th_evaluations` pipeline feeding
`node_threshold_evaluate`, verified separately above) is abstracted as a
function from the threshold and the current metric name to `(score,
metric_value, metric_literal)`; the canonical command is a function of the
threshold.  `max_nodes = args.max_nodes + 1` (line 625) and the loop guard is
`best_unchanged_count < staleness and node_threshold < max_nodes`
(line 640).  `best_threshold` is only assigned inside the improvement branch
(line 653), so it is modelled as an `Option`, `none` while unassigned. -/

/-- The sweep parameters: the abstracted oracle `ev`, the canonical command
`cmdOfTh` per threshold, `staleness`, `args.max_nodes` and
`args.nodes_step`. -/
structure SweepCfg where
  ev : ℤ → String → ℚ × ℚ × String
  cmdOfTh : ℤ → String
  staleness : ℕ
  max_nodes : ℤ
  nodes_step : ℤ

/-- The loop state of `best_node_threshold`: the current `node_threshold`,
the current `metric` name, `best_score`, `best_threshold` (unassigned until
the first improvement), `best_unchanged_count`, plus the progress rows
`(node_threshold, score, metric_value)` written to the nodes CSV and the
list of thresholds evaluated. -/
structure TState where
  threshold : ℤ
  metric : String
  bestScore : PyFloat
  bestThreshold : Option ℤ
  unchanged : ℕ
  evals : List ℤ
  rows : List (ℤ × ℚ × ℚ)
deriving DecidableEq, Repr

/-- The sweep loop guard
`best_unchanged_count < staleness and node_threshold < max_nodes`. -/
def sweepGuard (cfg : SweepCfg) (s : TState) : Bool :=
  decide (s.unchanged < cfg.staleness) &&
    decide (s.threshold < cfg.max_nodes + 1)

/-- One iteration of the sweep loop (lines 640-670): evaluate at the current
threshold, record the row, adopt the threshold as best when
`(score - EPSILON) > best_score` (else increment the staleness counter),
then advance the threshold by `nodes_step`.  Also returns the canonical
command issued. -/
def sweepStepP (cfg : SweepCfg) (s : TState) : TState :=
  let out := cfg.ev s.threshold s.metric
  let score := out.1
  let s₁ : TState :=
    { s with evals := s.evals ++ [s.threshold],
             rows := s.rows ++ [(s.threshold, score, out.2.1)] }
  let s₂ : TState :=
    if pfGt (pfSub (.val score) EPSILON) s.bestScore then
      { s₁ with bestThreshold := some s.threshold,
                bestScore := .val score, unchanged := 0 }
    else
      { s₁ with unchanged := s.unchanged + 1 }
  { s₂ with metric := out.2.2, threshold := s.threshold + cfg.nodes_step }

/-- The sweep loop, fuel-bounded: each unit of fuel allows one iteration;
once the guard fails the state is returned unchanged. -/
def sweepRun (cfg : SweepCfg) : ℕ → TState → TState
  | 0, s => s
  | fuel + 1, s =>
    if sweepGuard cfg s then sweepRun cfg fuel (sweepStepP cfg s) else s

/-- The canonical commands issued by a sweep run, in issue order. -/
def sweepTrace (cfg : SweepCfg) : ℕ → TState → List String
  | 0, _ => []
  | fuel + 1, s =>
    if sweepGuard cfg s then
      cfg.cmdOfTh s.threshold :: sweepTrace cfg fuel (sweepStepP cfg s)
    else []

/-- A full sweep run: the loop state, and the ledger after processing every
issued command in order through the resume block. -/
def runSweep (cfg : SweepCfg) (fuel : ℕ) (s : TState) (led : Ledger) :
    TState × Ledger :=
  (sweepRun cfg fuel s, processList led (sweepTrace cfg fuel s))

/-- The initial sweep state (lines 631-639): threshold at `min_nodes`,
`best_score = -inf`, no `best_threshold` assigned, `metric = args.optimize`. -/
def initSweep (min_nodes : ℤ) (metric : String) : TState :=
  { threshold := min_nodes, metric := metric, bestScore := .ninf,
    bestThreshold := none, unchanged := 0, evals := [], rows := [] }

/-- The final report (lines 672-680): the code prints `best_threshold` and
`best_score`; when the loop body never ran, `best_threshold` was never
assigned and the report raises (modelled as `none`). -/
def sweepReport (s : TState) : Option (ℤ × PyFloat) :=
  match s.bestThreshold with
  | none => none
  | some t => some (t, s.bestScore)

/-! ## Concrete instances used by the theorems below -/

/-- A canonical command differing from `cmdB`/`cmdZ` outside any
generated-name component. -/
def cmdA : String := "main --dataset A --output-dir d\n"

/-- A second canonical command. -/
def cmdB : String := "main --dataset B --output-dir d\n"

/-- A third canonical command. -/
def cmdZ : String := "main --dataset C --output-dir d\n"

/-- A command containing the generated-name marker, variant `a`. -/
def cmdXa : String := "main --x name=BigMLer_k name=Bigmler_a y\n"

/-- The same command except for the generated-name random suffix (`b`). -/
def cmdXb : String := "main --x name=BigMLer_k name=Bigmler_b y\n"

/-- A mid-resume ledger whose next unconsumed entry (`cmdA`, popped from the
end of the reversed list) differs from the command about to be issued. -/
def ledC1 : Ledger :=
  { resume := true, pending := [cmdB, cmdA], written := [], fresh := 0,
    catchups := 0, err := false }

/-- The metric name `"accuracy"` (`ACCURACY` from `bigmler.options.analyze`). -/
def metricAcc : String := "accuracy"

/-- The metric name `"mean_squared_error"` (an error measure, so a member of
the modelled `MINIMIZE_OPTIONS`). -/
def metricMSE : String := "mean_squared_error"

/-- An evaluation mapping holding only an averaged accuracy. -/
def evalAcc : List (String × ℚ) := [(avgName metricAcc, 9 / 10)]

/-- An evaluation mapping holding only an averaged R-squared. -/
def evalRsq : List (String × ℚ) := [(avgName R_SQUARED, 1 / 2)]

/-- A sweep configuration matching the concrete scenario of C8:
`min_nodes = 3` (the initial state below), `max_nodes = 103`,
`nodes_step = 100`, `staleness = 5`, and an oracle whose first call (at
threshold 3) already scores best. -/
def cfgC8 : SweepCfg :=
  { ev := fun t _ => (if t = 3 then 1 else 0, if t = 3 then 1 else 0, metricAcc),
    cmdOfTh := fun _ => cmdA, staleness := 5, max_nodes := 103,
    nodes_step := 100 }

/-- A sweep configuration whose oracle is concretely
`node_threshold_evaluate` with penalty `1/10` over `evalAcc` (the fallback
branch of the match is unreachable for these inputs). -/
def cfgC9 : SweepCfg :=
  { ev := fun t m =>
      match node_threshold_evaluate [] evalAcc m (1 / 10) t with
      | some r => r
      | none => (0, 0, m),
    cmdOfTh := fun _ => cmdA, staleness := 5, max_nodes := 3,
    nodes_step := 100 }

/-- A sweep configuration with an empty threshold range
(`max_nodes + 1 <= min_nodes` for the initial threshold 4 used below). -/
def cfgC10 : SweepCfg :=
  { ev := fun t _ => ((t : ℚ), (t : ℚ), metricAcc),
    cmdOfTh := fun _ => cmdA, staleness := 5, max_nodes := 2,
    nodes_step := 100 }

/-- A feature-search configuration whose oracle scores a feature vector by
its number of selected features. -/
def cfgW : SearchCfg :=
  { evF := fun st _ => ((st.count true : ℚ), (st.count true : ℚ), metricAcc),
    cmdOf := fun _ _ => cmdA, staleness := 5 }

/-! ## Theorems: helper lemmas on `PyFloat` -/

theorem pfGt_irrefl (x : PyFloat) : pfGt x x = false := by
  cases x <;> simp [pfGt]

theorem pfLe_refl (x : PyFloat) : pfLe x x = true := by
  simp [pfLe, pfGt_irrefl]

theorem pfLe_trans {x y z : PyFloat} (h₁ : pfLe x y = true)
    (h₂ : pfLe y z = true) : pfLe x z = true := by
  cases x <;> cases y <;> cases z <;>
    simp_all [pfLe, pfGt] <;> linarith

/-- Subtracting on the left equals adding on the right: the update test
`(score - EPSILON) > best_score` of the code is the claimed "exceeds the
previous best by more than EPSILON". -/
theorem pfGt_sub_iff_gt_add (x y : PyFloat) (e : ℚ) :
    pfGt (pfSub x e) y = pfGt x (pfAdd y e) := by
  cases x <;> cases y <;> simp [pfGt, pfSub, pfAdd]
  constructor <;> intro h <;> linarith

theorem pfLe_of_gt_sub {x y : PyFloat} {e : ℚ} (he : 0 < e)
    (h : pfGt (pfSub x e) y = true) : pfLe y x = true := by
  cases x <;> cases y <;> simp_all [pfGt, pfSub, pfLe] <;> linarith

theorem ne_of_gt_sub {x y : PyFloat} {e : ℚ} (he : 0 < e)
    (h : pfGt (pfSub x e) y = true) : x ≠ y := by
  cases x <;> cases y <;> simp_all [pfGt, pfSub] <;> intro hc <;>
    simp_all <;> linarith

/-! ## Theorems: the ledger -/

theorem different_command_self (s : String) : different_command s s = false := by
  simp [different_command]

theorem processList_nonresume (cmds : List String) (pend w : List String)
    (f k : ℕ) (e : Bool) :
    processList ⟨false, pend, w, f, k, e⟩ cmds =
      ⟨false, pend, w ++ cmds, f + cmds.length, k, e⟩ := by
  induction cmds generalizing w f with
  | nil => simp [processList]
  | cons c cs ih =>
    simp only [processList, List.foldl_cons, processCommand] at *
    simp only [if_neg (by simp : ¬ (false = true))] at *
    rw [ih]
    simp [List.append_assoc]
    omega

theorem processList_replay (cmds : List String) (w : List String)
    (f k : ℕ) (e : Bool) :
    processList ⟨true, cmds.reverse, w, f, k, e⟩ cmds =
      if cmds = [] then ⟨true, [], w, f, k, e⟩
      else ⟨false, [], w, f, k + 1, e⟩ := by
  induction cmds with
  | nil => simp [processList]
  | cons c cs ih =>
    simp only [List.reverse_cons, processList, List.foldl_cons]
    have hlast : (cs.reverse ++ [c]).getLast? = some c := by
      simp [List.getLast?_concat]
    have hdrop : (cs.reverse ++ [c]).dropLast = cs.reverse := by
      simp [List.dropLast_concat]
    simp only [processCommand, hlast, hdrop, if_pos rfl,
      different_command_self, Bool.false_eq_true, if_neg]
    by_cases hcs : cs = []
    · subst hcs
      simp [processList]
    · have hrev : cs.reverse ≠ [] := by simpa using hcs
      simp only [if_neg hrev]
      simpa [hcs] using ih

/-! ## Claim C1 (code_bug evidence) -/

/-- C1: the claim says that when the next unconsumed ledger entry differs
from the canonical command about to be issued, the engine abandons resume
mode, logs the command and executes it freshly.  Evidence against the code:
with next entry `cmdA` (which differs from the issued `cmdZ` both verbatim
and after name-stripping), the resume block keeps `resume = True`, appends
nothing to the ledger and performs no fresh execution, because
`different_command` returns `False` for these plainly different commands. -/
theorem c1_resume_not_abandoned_on_divergence :
    (processCommand ledC1 cmdZ).resume = true ∧
    (processCommand ledC1 cmdZ).fresh = 0 ∧
    (processCommand ledC1 cmdZ).written = [] ∧
    cmdA ≠ cmdZ ∧
    stripNameGen cmdA.data ≠ stripNameGen cmdZ.data ∧
    different_command cmdA cmdZ = false := by
  decide

/-! ## Claim C2 (code_bug evidence) -/

/-- C2: the claim says `different_command` classifies two canonical commands
as the same iff their strings match after stripping the generated default
name random suffix.  Evidence against the code: `cmdA`/`cmdB` differ
outside any generated-name component, yet the code classifies them as the
same (returns `False`); `cmdXa`/`cmdXb` match after stripping the generated
name, yet the code classifies them as different (returns `True`).  The
spec-modelled predicate `specDifferent` gives the claimed answers. -/
theorem c2_different_command_misclassifies :
    (different_command cmdA cmdB = false ∧ specDifferent cmdA cmdB = true) ∧
    (different_command cmdXa cmdXb = true ∧
      specDifferent cmdXa cmdXb = false) := by
  decide

/-! ## Claim C3 -/

/-- The source scorer evaluated concretely: requested metric
`mean_squared_error` (in the minimize set), evaluation holding only
`average_r_squared = 1/2`, penalty 0, complexity 5. -/
theorem evaluateScore_mse_fallback :
    evaluateScore MINIMIZE_OPTIONS evalRsq metricMSE 0 5 =
      some (-(1 / 2), 1 / 2, R_SQUARED) := by
  have h1 : lookupEval evalRsq (avgName metricMSE) = none := rfl
  have h2 : lookupEval evalRsq (avgName R_SQUARED) = some (1 / 2) := rfl
  have hres : resolveMetric evalRsq metricMSE = some (R_SQUARED, 1 / 2) := by
    simp [resolveMetric, h1, h2]
  have hm : metricMSE ∈ MINIMIZE_OPTIONS := by decide
  simp only [evaluateScore, hres, if_pos hm]
  norm_num

/-- C3 counterexample: the scorer computes `invert` from the *requested*
metric (line 601 / line 704), not from the resolved one.  Requesting
`mean_squared_error` (a minimize metric) against an evaluation that only has
`average_r_squared` resolves to `r_squared` (not a minimize metric); the
claimed formula then gives `+1/2` while the code returns `-1/2`. -/
theorem c3_invert_uses_requested_metric :
    evaluateScore MINIMIZE_OPTIONS evalRsq metricMSE 0 5 =
      some (-(1 / 2), 1 / 2, R_SQUARED) ∧
    specScore MINIMIZE_OPTIONS R_SQUARED (1 / 2) 0 5 = 1 / 2 ∧
    ((-(1 / 2) : ℚ) ≠ 1 / 2) := by
  refine ⟨evaluateScore_mse_fallback, ?_, by norm_num⟩
  have hm : R_SQUARED ∉ MINIMIZE_OPTIONS := by decide
  simp only [specScore, if_neg hm]
  norm_num

/-- C3 amended: the scorer returns
`score = invert * (raw - invert * penalty * complexity)` where
`invert = -1` exactly when the *requested* metric is in the minimize set
(else `+1`), and returns the raw averaged metric value unmodified as the
second component (the third being the resolved metric name). -/
theorem c3_amended_scorer_formula (minimize : List String)
    (evaluation : List (String × ℚ)) (metric : String)
    (penalty complexity s v : ℚ) (lit : String)
    (h : evaluateScore minimize evaluation metric penalty complexity =
      some (s, v, lit)) :
    s = (if metric ∈ minimize then (-1 : ℚ) else 1) *
        (v - (if metric ∈ minimize then (-1 : ℚ) else 1) *
          penalty * complexity) ∧
    resolveMetric evaluation metric = some (lit, v) := by
  unfold evaluateScore at h
  cases hr : resolveMetric evaluation metric with
  | none => rw [hr] at h; exact absurd h (by simp)
  | some lv =>
    obtain ⟨l1, l2⟩ := lv
    rw [hr] at h
    simp only [Option.some.injEq, Prod.mk.injEq] at h
    obtain ⟨hs, hv, hl⟩ := h
    subst hs
    subst hv
    subst hl
    exact ⟨rfl, rfl⟩

/-- Witness for `c3_amended_scorer_formula` at a concrete input. -/
theorem c3_amended_scorer_formula_witness :
    (-(1 / 2) : ℚ) = (if metricMSE ∈ MINIMIZE_OPTIONS then (-1 : ℚ) else 1) *
        (1 / 2 - (if metricMSE ∈ MINIMIZE_OPTIONS then (-1 : ℚ) else 1) *
          0 * 5) ∧
    resolveMetric evalRsq metricMSE = some (R_SQUARED, 1 / 2) :=
  c3_amended_scorer_formula MINIMIZE_OPTIONS evalRsq metricMSE
    0 5 (-(1 / 2)) (1 / 2) R_SQUARED evaluateScore_mse_fallback

/-! ## Claim C4 -/

/-- C4: the scorer resolves the averaged form of the requested metric; if
that field is absent it resolves `average_r_squared` and reports `r_squared`
as the resolved name; and it fails fatally (`none`, a `sys.exit`) iff
neither field is present.  The last conjunct carries the fatality over to
the full scorer. -/
theorem c4_metric_resolution (evaluation : List (String × ℚ))
    (metric : String) :
    (∀ v, lookupEval evaluation (avgName metric) = some v →
      resolveMetric evaluation metric = some (metric, v)) ∧
    (lookupEval evaluation (avgName metric) = none →
      ∀ v, lookupEval evaluation (avgName R_SQUARED) = some v →
        resolveMetric evaluation metric = some (R_SQUARED, v)) ∧
    (resolveMetric evaluation metric = none ↔
      lookupEval evaluation (avgName metric) = none ∧
      lookupEval evaluation (avgName R_SQUARED) = none) ∧
    (∀ minimize penalty complexity,
      evaluateScore minimize evaluation metric penalty complexity = none ↔
        resolveMetric evaluation metric = none) := by
  refine ⟨?_, ?_, ?_, ?_⟩
  · intro v hv
    simp [resolveMetric, hv]
  · intro h v hv
    simp [resolveMetric, h, hv]
  · cases h1 : lookupEval evaluation (avgName metric) with
    | some v => simp [resolveMetric, h1]
    | none =>
      cases h2 : lookupEval evaluation (avgName R_SQUARED) with
      | some v => simp [resolveMetric, h1, h2]
      | none => simp [resolveMetric, h1, h2]
  · intro minimize penalty complexity
    unfold evaluateScore
    cases hr : resolveMetric evaluation metric <;> simp

/-- Witness for `c4_metric_resolution` at concrete inputs: the requested
metric found directly, the R-squared fallback, and the fatal case. -/
theorem c4_metric_resolution_witness :
    resolveMetric evalAcc metricAcc = some (metricAcc, 9 / 10) ∧
    resolveMetric evalRsq metricMSE = some (R_SQUARED, 1 / 2) ∧
    resolveMetric [] metricAcc = none := by
  refine ⟨?_, ?_, ?_⟩
  · exact (c4_metric_resolution evalAcc metricAcc).1 (9 / 10)
      (by simp [lookupEval, List.lookup, evalAcc])
  · exact (c4_metric_resolution evalRsq metricMSE).2.1
      (by simp [lookupEval, List.lookup, evalRsq, avgName, metricMSE,
        R_SQUARED])
      (1 / 2) (by simp [lookupEval, List.lookup, evalRsq])
  · exact (c4_metric_resolution [] metricAcc).2.2.1.mpr
      (by simp [lookupEval, List.lookup])

/-! ## Theorems: the node-threshold sweep -/

theorem sweepRun_of_guard_false {cfg : SweepCfg} {s : TState}
    (h : sweepGuard cfg s = false) : ∀ fuel, sweepRun cfg fuel s = s := by
  intro fuel
  cases fuel with
  | zero => rfl
  | succ n => simp [sweepRun, h]

theorem sweepStepP_threshold (cfg : SweepCfg) (s : TState) :
    (sweepStepP cfg s).threshold = s.threshold + cfg.nodes_step := rfl

/-- With a positive step, `(max_nodes + 1 - threshold)⁺` units of fuel
guarantee the loop guard has failed (the loop has really halted, not run out
of fuel). -/
theorem sweepRun_halts (cfg : SweepCfg) (hstep : 1 ≤ cfg.nodes_step) :
    ∀ (fuel : ℕ) (s : TState),
      (cfg.max_nodes + 1 - s.threshold).toNat ≤ fuel →
      sweepGuard cfg (sweepRun cfg fuel s) = false := by
  intro fuel
  induction fuel with
  | zero =>
    intro s h
    have hth : cfg.max_nodes + 1 ≤ s.threshold := by omega
    show sweepGuard cfg s = false
    simp only [sweepGuard, Bool.and_eq_false_iff, decide_eq_false_iff_not]
    omega
  | succ n ih =>
    intro s h
    by_cases hg : sweepGuard cfg s = true
    · have hth : s.threshold < cfg.max_nodes + 1 := by
        have := hg
        simp only [sweepGuard, Bool.and_eq_true, decide_eq_true_eq] at this
        exact this.2
      simp only [sweepRun, hg, if_true]
      apply ih
      rw [sweepStepP_threshold]
      omega
    · rw [Bool.not_eq_true] at hg
      rw [sweepRun_of_guard_false hg]
      exact hg

/-! ## Claim C10 -/

/-- C10: when `max_nodes + 1 <= min_nodes` the sweep loop body never
executes: no evaluation is performed, `best_threshold` is never assigned,
and the final report (which reads `best_threshold`) cannot be produced
(`none`, an unbound-local error in Python). -/
theorem c10_empty_range_never_reports (cfg : SweepCfg) (min_nodes : ℤ)
    (metric : String) (fuel : ℕ) (h : cfg.max_nodes + 1 ≤ min_nodes) :
    (sweepRun cfg fuel (initSweep min_nodes metric)).evals = [] ∧
    (sweepRun cfg fuel (initSweep min_nodes metric)).bestThreshold = none ∧
    sweepReport (sweepRun cfg fuel (initSweep min_nodes metric)) = none := by
  have hg : sweepGuard cfg (initSweep min_nodes metric) = false := by
    simp only [sweepGuard, initSweep, Bool.and_eq_false_iff,
      decide_eq_false_iff_not]
    omega
  rw [sweepRun_of_guard_false hg]
  exact ⟨rfl, rfl, rfl⟩

/-- Witness for `c10_empty_range_never_reports`: `max_nodes = 2`,
`min_nodes = 4`. -/
theorem c10_empty_range_never_reports_witness :
    (sweepRun cfgC10 7 (initSweep 4 metricAcc)).evals = [] ∧
    (sweepRun cfgC10 7 (initSweep 4 metricAcc)).bestThreshold = none ∧
    sweepReport (sweepRun cfgC10 7 (initSweep 4 metricAcc)) = none :=
  c10_empty_range_never_reports cfgC10 4 metricAcc 7 (by decide)

theorem sweepRun_succ (cfg : SweepCfg) (n : ℕ) (s : TState) :
    sweepRun cfg (n + 1) s =
      if sweepGuard cfg s then sweepRun cfg n (sweepStepP cfg s) else s := rfl

theorem cfgC8_step1 :
    sweepStepP cfgC8 (initSweep 3 metricAcc) =
      ⟨103, metricAcc, .val 1, some 3, 0, [3], [(3, 1, 1)]⟩ := by
  norm_num [sweepStepP, cfgC8, initSweep, pfGt, pfSub, EPSILON]

theorem cfgC8_step2 :
    sweepStepP cfgC8 ⟨103, metricAcc, .val 1, some 3, 0, [3], [(3, 1, 1)]⟩ =
      ⟨203, metricAcc, .val 1, some 3, 1, [3, 103],
        [(3, 1, 1), (103, 0, 0)]⟩ := by
  norm_num [sweepStepP, cfgC8, pfGt, pfSub, EPSILON]

/-- The concrete C8 run: `min=3, max=103, step=100, staleness=5`, the first
call scoring best; it performs exactly the two evaluations 3 and 103. -/
theorem cfgC8_run :
    sweepRun cfgC8 101 (initSweep 3 metricAcc) =
      ⟨203, metricAcc, .val 1, some 3, 1, [3, 103],
        [(3, 1, 1), (103, 0, 0)]⟩ := by
  have g0 : sweepGuard cfgC8 (initSweep 3 metricAcc) = true := by decide
  have g1 : sweepGuard cfgC8
      ⟨103, metricAcc, .val 1, some 3, 0, [3], [(3, 1, 1)]⟩ = true := by decide
  have g2 : sweepGuard cfgC8
      ⟨203, metricAcc, .val 1, some 3, 1, [3, 103],
        [(3, 1, 1), (103, 0, 0)]⟩ = false := by decide
  rw [show (101 : ℕ) = 100 + 1 from rfl, sweepRun_succ, g0, if_pos rfl,
    cfgC8_step1]
  rw [show (100 : ℕ) = 99 + 1 from rfl, sweepRun_succ, g1, if_pos rfl,
    cfgC8_step2]
  exact sweepRun_of_guard_false g2 99

/-! ## Claim C8 -/

/-- C8: with a positive step and fuel at least `(max_nodes + 1 - threshold)⁺`
the sweep has genuinely halted, and on halting either the staleness bound
has been reached or the threshold exceeds the maximum; the loop never halts
while the guard holds (each unit of fuel performs exactly one iteration);
and on the concrete instance `min=3, max=103, step=100, staleness=5` with a
best-scoring first call, exactly the two thresholds 3 and 103 are
evaluated. -/
theorem c8_sweep_halting (cfg : SweepCfg) (s : TState) (fuel : ℕ)
    (hstep : 1 ≤ cfg.nodes_step)
    (hfuel : (cfg.max_nodes + 1 - s.threshold).toNat ≤ fuel) :
    (cfg.staleness ≤ (sweepRun cfg fuel s).unchanged ∨
      cfg.max_nodes + 1 ≤ (sweepRun cfg fuel s).threshold) ∧
    (∀ (cfg' : SweepCfg) (s' : TState) (f : ℕ), sweepGuard cfg' s' = true →
      sweepRun cfg' (f + 1) s' = sweepRun cfg' f (sweepStepP cfg' s')) ∧
    (sweepRun cfgC8 101 (initSweep 3 metricAcc)).evals = [3, 103] := by
  refine ⟨?_, ?_, ?_⟩
  · have h := sweepRun_halts cfg hstep fuel s hfuel
    simp only [sweepGuard, Bool.and_eq_false_iff,
      decide_eq_false_iff_not] at h
    omega
  · intro cfg' s' f hg
    rw [sweepRun_succ, hg, if_pos rfl]
  · rw [cfgC8_run]

/-- Witness for `c8_sweep_halting` at the concrete C8 instance. -/
theorem c8_sweep_halting_witness :
    (cfgC8.staleness ≤
        (sweepRun cfgC8 101 (initSweep 3 metricAcc)).unchanged ∨
      cfgC8.max_nodes + 1 ≤
        (sweepRun cfgC8 101 (initSweep 3 metricAcc)).threshold) ∧
    (∀ (cfg' : SweepCfg) (s' : TState) (f : ℕ), sweepGuard cfg' s' = true →
      sweepRun cfg' (f + 1) s' = sweepRun cfg' f (sweepStepP cfg' s')) ∧
    (sweepRun cfgC8 101 (initSweep 3 metricAcc)).evals = [3, 103] :=
  c8_sweep_halting cfgC8 (initSweep 3 metricAcc) 101 (by decide) (by decide)

/-! ## Claim C9 -/

theorem cfgC9_ev :
    cfgC9.ev 3 metricAcc = (3 / 5, 9 / 10, metricAcc) := by
  have h1 : lookupEval evalAcc (avgName metricAcc) = some (9 / 10) := rfl
  have hres : resolveMetric evalAcc metricAcc =
      some (metricAcc, 9 / 10) := by
    simp [resolveMetric, h1]
  have hm : metricAcc ∉ ([] : List String) := by decide
  simp only [cfgC9, node_threshold_evaluate, evaluateScore, hres, if_neg hm]
  norm_num

theorem cfgC9_step1 :
    sweepStepP cfgC9 (initSweep 3 metricAcc) =
      ⟨103, metricAcc, .val (3 / 5), some 3, 0, [3],
        [(3, 3 / 5, 9 / 10)]⟩ := by
  norm_num [sweepStepP, cfgC9_ev, initSweep, pfGt, pfSub, EPSILON,
    show cfgC9.nodes_step = 100 from rfl]

/-- The concrete C9 run: one evaluation at threshold 3, raw averaged metric
`9/10`, penalized score `3/5` (penalty `1/10`, complexity 3). -/
theorem cfgC9_run :
    sweepRun cfgC9 2 (initSweep 3 metricAcc) =
      ⟨103, metricAcc, .val (3 / 5), some 3, 0, [3],
        [(3, 3 / 5, 9 / 10)]⟩ := by
  have g0 : sweepGuard cfgC9 (initSweep 3 metricAcc) = true := by decide
  have g1 : sweepGuard cfgC9
      ⟨103, metricAcc, .val (3 / 5), some 3, 0, [3],
        [(3, 3 / 5, 9 / 10)]⟩ = false := by decide
  rw [show (2 : ℕ) = 1 + 1 from rfl, sweepRun_succ, g0, if_pos rfl,
    cfgC9_step1]
  exact sweepRun_of_guard_false g1 1

/-- C9 counterexample: at the best threshold (3) the raw averaged metric
value recorded in the progress row is `9/10`, but the value the final
report carries alongside the best threshold is `best_score = 3/5`, the
*penalized* score - not the raw metric value the claim asserts. -/
theorem c9_report_not_raw_metric :
    sweepReport (sweepRun cfgC9 2 (initSweep 3 metricAcc)) =
      some (3, .val (3 / 5)) ∧
    (sweepRun cfgC9 2 (initSweep 3 metricAcc)).rows =
      [(3, 3 / 5, 9 / 10)] ∧
    ((3 / 5 : ℚ) ≠ 9 / 10) := by
  rw [cfgC9_run]
  refine ⟨rfl, rfl, by norm_num⟩

theorem sweepStepP_rows (cfg : SweepCfg) (s : TState) :
    (sweepStepP cfg s).rows = s.rows ++
      [(s.threshold, (cfg.ev s.threshold s.metric).1,
        (cfg.ev s.threshold s.metric).2.1)] := by
  simp only [sweepStepP]
  split
  · rfl
  · rfl

theorem sweepStepP_best_true (cfg : SweepCfg) (s : TState)
    (hc : pfGt (pfSub (.val (cfg.ev s.threshold s.metric).1) EPSILON)
      s.bestScore = true) :
    (sweepStepP cfg s).bestThreshold = some s.threshold ∧
    (sweepStepP cfg s).bestScore =
      .val (cfg.ev s.threshold s.metric).1 := by
  simp only [sweepStepP]
  rw [if_pos hc]
  exact ⟨rfl, rfl⟩

theorem sweepStepP_best_false (cfg : SweepCfg) (s : TState)
    (hc : pfGt (pfSub (.val (cfg.ev s.threshold s.metric).1) EPSILON)
      s.bestScore = false) :
    (sweepStepP cfg s).bestThreshold = s.bestThreshold ∧
    (sweepStepP cfg s).bestScore = s.bestScore := by
  simp only [sweepStepP]
  rw [if_neg (by simp [hc])]
  exact ⟨rfl, rfl⟩

theorem sweepStepP_report_inv (cfg : SweepCfg) (s : TState)
    (h : ∀ t, s.bestThreshold = some t →
      ∃ q mv, s.bestScore = PyFloat.val q ∧ (t, q, mv) ∈ s.rows) :
    ∀ t, (sweepStepP cfg s).bestThreshold = some t →
      ∃ q mv, (sweepStepP cfg s).bestScore = PyFloat.val q ∧
        (t, q, mv) ∈ (sweepStepP cfg s).rows := by
  intro t ht
  by_cases hc : pfGt (pfSub (.val (cfg.ev s.threshold s.metric).1) EPSILON)
      s.bestScore = true
  · obtain ⟨hbt, hbs⟩ := sweepStepP_best_true cfg s hc
    rw [hbt] at ht
    have hth : s.threshold = t := Option.some.inj ht
    refine ⟨(cfg.ev s.threshold s.metric).1,
      (cfg.ev s.threshold s.metric).2.1, hbs, ?_⟩
    rw [sweepStepP_rows, ← hth]
    simp
  · rw [Bool.not_eq_true] at hc
    obtain ⟨hbt, hbs⟩ := sweepStepP_best_false cfg s hc
    rw [hbt] at ht
    obtain ⟨q, mv, hq, hmem⟩ := h t ht
    refine ⟨q, mv, by rw [hbs, hq], ?_⟩
    rw [sweepStepP_rows]
    exact List.mem_append_left _ hmem

theorem sweepRun_report_inv (cfg : SweepCfg) :
    ∀ (fuel : ℕ) (s : TState),
      (∀ t, s.bestThreshold = some t →
        ∃ q mv, s.bestScore = PyFloat.val q ∧ (t, q, mv) ∈ s.rows) →
      ∀ t, (sweepRun cfg fuel s).bestThreshold = some t →
        ∃ q mv, (sweepRun cfg fuel s).bestScore = PyFloat.val q ∧
          (t, q, mv) ∈ (sweepRun cfg fuel s).rows := by
  intro fuel
  induction fuel with
  | zero => intro s h; exact h
  | succ n ih =>
    intro s h
    by_cases hg : sweepGuard cfg s = true
    · rw [sweepRun_succ, hg, if_pos rfl]
      exact ih (sweepStepP cfg s) (sweepStepP_report_inv cfg s h)
    · rw [Bool.not_eq_true] at hg
      rw [sweepRun_of_guard_false hg]
      exact h

/-- C9 amended: on termination the sweep reports the best threshold together
with `best_score` - the penalized score recorded in the progress row of
that threshold - not the raw metric value of the row. -/
theorem c9_amended_report_is_penalized_score (cfg : SweepCfg) (fuel : ℕ)
    (min_nodes : ℤ) (metric : String) (t : ℤ) (b : PyFloat)
    (h : sweepReport (sweepRun cfg fuel (initSweep min_nodes metric)) =
      some (t, b)) :
    ∃ q mv, b = PyFloat.val q ∧
      (t, q, mv) ∈ (sweepRun cfg fuel (initSweep min_nodes metric)).rows := by
  have hbt : (sweepRun cfg fuel (initSweep min_nodes metric)).bestThreshold =
      some t ∧ (sweepRun cfg fuel (initSweep min_nodes metric)).bestScore =
      b := by
    unfold sweepReport at h
    cases hb : (sweepRun cfg fuel (initSweep min_nodes metric)).bestThreshold
      with
    | none => rw [hb] at h; exact absurd h (by simp)
    | some t' =>
      rw [hb] at h
      simp only [Option.some.injEq, Prod.mk.injEq] at h
      exact ⟨by rw [h.1], h.2⟩
  obtain ⟨hbt, hbs⟩ := hbt
  obtain ⟨q, mv, hq, hmem⟩ := sweepRun_report_inv cfg fuel
    (initSweep min_nodes metric) (by intro t' ht'; simp [initSweep] at ht')
    t hbt
  exact ⟨q, mv, by rw [← hbs, hq], hmem⟩

/-- Witness for `c9_amended_report_is_penalized_score` on the concrete C9
run. -/
theorem c9_amended_report_is_penalized_score_witness :
    ∃ q mv, PyFloat.val (3 / 5) = PyFloat.val q ∧
      (3, q, mv) ∈ (sweepRun cfgC9 2 (initSweep 3 metricAcc)).rows :=
  c9_amended_report_is_penalized_score cfgC9 2 3 metricAcc 3
    (.val (3 / 5)) (by rw [cfgC9_run]; rfl)

/-! ## Theorems: the feature best-first search -/

theorem EPSILON_pos : 0 < EPSILON := by norm_num [EPSILON]

theorem findMaxFold_mem :
    ∀ (l : List ScoredState) (acc : Option ScoredState) (bs : PyFloat)
      (fm : ScoredState), (findMaxFold l acc bs).1 = some fm →
      acc = some fm ∨ fm ∈ l := by
  intro l
  induction l with
  | nil => intro acc bs fm h; exact Or.inl h
  | cons ss rest ih =>
    intro acc bs fm h
    simp only [findMaxFold] at h
    by_cases hc : (pfGt ss.score bs || (acc.isNone && (bs == ss.score))) = true
    · rw [if_pos hc] at h
      rcases ih (some ss) ss.score fm h with h' | h'
      · exact Or.inr (by simp [Option.some.inj h'])
      · exact Or.inr (List.mem_cons_of_mem _ h')
    · rw [if_neg hc] at h
      rcases ih acc bs fm h with h' | h'
      · exact Or.inl h'
      · exact Or.inr (List.mem_cons_of_mem _ h')

theorem find_max_state_mem {l : List ScoredState} {fm : ScoredState}
    (h : find_max_state l = some fm) : fm ∈ l := by
  rcases findMaxFold_mem l none .ninf fm h with h' | h'
  · exact absurd h' (by simp)
  · exact h'

theorem pstep_of_none (cfg : SearchCfg) (p : PState)
    (hfm : find_max_state p.openList = none) : pstep cfg p = p := by
  simp only [pstep, pstepFull, hfm]

theorem pstep_open_closed (cfg : SearchCfg) (p : PState) (fm : ScoredState)
    (hfm : find_max_state p.openList = some fm) :
    (pstep cfg p).openList =
      (expandLoop cfg (expand_state fm.state) (p.openList.erase fm)
        (p.closedList ++ [fm]) p.counter p.metric).1 ∧
    (pstep cfg p).closedList = p.closedList ++ [fm] ∧
    (pstepFull cfg p).2 =
      (expandLoop cfg (expand_state fm.state) (p.openList.erase fm)
        (p.closedList ++ [fm]) p.counter p.metric).2.2.2 := by
  simp [pstep, pstepFull, hfm]

theorem pstep_best_of_true (cfg : SearchCfg) (p : PState) (fm : ScoredState)
    (hfm : find_max_state p.openList = some fm)
    (hc : pfGt (pfSub fm.score EPSILON) p.best.score = true) :
    (pstep cfg p).best = fm ∧ (pstep cfg p).bestUnchanged = 0 := by
  simp only [pstep, pstepFull, hfm]
  rw [if_pos hc]
  exact ⟨rfl, rfl⟩

theorem pstep_best_of_false (cfg : SearchCfg) (p : PState) (fm : ScoredState)
    (hfm : find_max_state p.openList = some fm)
    (hc : pfGt (pfSub fm.score EPSILON) p.best.score = false) :
    (pstep cfg p).best = p.best ∧
    (pstep cfg p).bestUnchanged = p.bestUnchanged + 1 := by
  simp only [pstep, pstepFull, hfm]
  rw [if_neg (by simp [hc])]
  exact ⟨rfl, rfl⟩

theorem pstep_best_mono (cfg : SearchCfg) (p : PState) :
    pfLe p.best.score (pstep cfg p).best.score = true := by
  cases hfm : find_max_state p.openList with
  | none => rw [pstep_of_none cfg p hfm]; exact pfLe_refl _
  | some fm =>
    by_cases hc : pfGt (pfSub fm.score EPSILON) p.best.score = true
    · rw [(pstep_best_of_true cfg p fm hfm hc).1]
      exact pfLe_of_gt_sub EPSILON_pos hc
    · rw [Bool.not_eq_true] at hc
      rw [(pstep_best_of_false cfg p fm hfm hc).1]
      exact pfLe_refl _

theorem runP_best_mono (cfg : SearchCfg) :
    ∀ (fuel : ℕ) (p : PState),
      pfLe p.best.score (runP cfg fuel p).best.score = true := by
  intro fuel
  induction fuel with
  | zero => intro p; exact pfLe_refl _
  | succ n ih =>
    intro p
    by_cases hg : searchGuard cfg p = true
    · show pfLe _ (if searchGuard cfg p then runP cfg n (pstep cfg p)
        else p).best.score = true
      rw [hg, if_pos rfl]
      exact pfLe_trans (pstep_best_mono cfg p) (ih (pstep cfg p))
    · rw [Bool.not_eq_true] at hg
      show pfLe _ (if searchGuard cfg p then runP cfg n (pstep cfg p)
        else p).best.score = true
      rw [hg]
      simp only [Bool.false_eq_true, if_false]
      exact pfLe_refl _

/-! ## Claim C5 -/

/-- C5: across any sequence of iterations the best score is monotonically
non-decreasing, and the best triple changes (to the newly closed state, with
the staleness counter reset) exactly when the score of that state exceeds the
previous best by more than `EPSILON = 0.001`; otherwise the best triple is
unchanged and the staleness counter is incremented. -/
theorem c5_best_monotone (cfg : SearchCfg) (fuel : ℕ) (p : PState) :
    pfLe p.best.score (runP cfg fuel p).best.score = true ∧
    (∀ fm, find_max_state p.openList = some fm →
      (pfGt fm.score (pfAdd p.best.score EPSILON) = true →
        (pstep cfg p).best = fm ∧ (pstep cfg p).bestUnchanged = 0 ∧
        (pstep cfg p).best ≠ p.best) ∧
      (pfGt fm.score (pfAdd p.best.score EPSILON) = false →
        (pstep cfg p).best = p.best ∧
        (pstep cfg p).bestUnchanged = p.bestUnchanged + 1)) := by
  refine ⟨runP_best_mono cfg fuel p, ?_⟩
  intro fm hfm
  constructor
  · intro hgt
    have hc : pfGt (pfSub fm.score EPSILON) p.best.score = true := by
      rw [pfGt_sub_iff_gt_add]; exact hgt
    obtain ⟨h1, h2⟩ := pstep_best_of_true cfg p fm hfm hc
    refine ⟨h1, h2, ?_⟩
    rw [h1]
    intro heq
    exact (ne_of_gt_sub EPSILON_pos hc) (by rw [heq])
  · intro hng
    have hc : pfGt (pfSub fm.score EPSILON) p.best.score = false := by
      rw [pfGt_sub_iff_gt_add]; exact hng
    exact pstep_best_of_false cfg p fm hfm hc

/-- Witness for `c5_best_monotone` on a concrete two-feature search state
(the initial one, whose selected state ties the best score, leaving the best
unchanged and incrementing the staleness counter). -/
theorem c5_best_monotone_witness :
    pfLe (initSearch 2 metricAcc).best.score
      (runP cfgW 3 (initSearch 2 metricAcc)).best.score = true ∧
    ((pstep cfgW (initSearch 2 metricAcc)).best =
        (initSearch 2 metricAcc).best ∧
      (pstep cfgW (initSearch 2 metricAcc)).bestUnchanged =
        (initSearch 2 metricAcc).bestUnchanged + 1) :=
  ⟨(c5_best_monotone cfgW 3 (initSearch 2 metricAcc)).1,
    (((c5_best_monotone cfgW 3 (initSearch 2 metricAcc)).2
      ⟨List.replicate 2 false, .ninf, .ninf⟩ (by decide)).2 (by decide))⟩

/-! ## Claim C6: no-duplicate-states machinery -/

theorem set_getD_same :
    ∀ (l : List Bool) (i : ℕ) (b d : Bool), i < l.length →
      (l.set i b).getD i d = b := by
  intro l
  induction l with
  | nil => intro i b d h; exact absurd h (by simp)
  | cons c cs ih =>
    intro i b d h
    cases i with
    | zero => rfl
    | succ n =>
      show (cs.set n b).getD n d = b
      exact ih n b d (by simpa using h)

theorem set_getD_other :
    ∀ (l : List Bool) (i j : ℕ) (b d : Bool), i ≠ j →
      (l.set i b).getD j d = l.getD j d := by
  intro l
  induction l with
  | nil => intro i j b d h; simp [List.set]
  | cons c cs ih =>
    intro i j b d h
    cases i with
    | zero =>
      cases j with
      | zero => exact absurd rfl h
      | succ m => rfl
    | succ n =>
      cases j with
      | zero => rfl
      | succ m =>
        show (cs.set n b).getD m d = cs.getD m d
        exact ih n m b d (by omega)

theorem expand_state_nodup (parent : List Bool) :
    (expand_state parent).Nodup := by
  unfold expand_state
  refine List.Nodup.map_on ?_ (List.nodup_range parent.length)
  intro i hi j hj hij
  by_contra hne
  rw [List.mem_range] at hi hj
  have h1 : (parent.set i (! parent.getD i false)).getD i false =
      ! parent.getD i false := set_getD_same parent i _ false hi
  have h2 : (parent.set j (! parent.getD j false)).getD i false =
      parent.getD i false := set_getD_other parent j i _ false (by omega)
  rw [hij, h2] at h1
  exact Bool.not_ne_self _ h1.symm

theorem stlist_append (l₁ l₂ : List ScoredState) :
    stlist (l₁ ++ l₂) = stlist l₁ ++ stlist l₂ :=
  List.map_append ScoredState.state l₁ l₂

/-- Moving the selected element from the open list to the closed list
permutes the combined state vectors, so no duplicate appears. -/
theorem moved_nodup {openL closedL : List ScoredState} {fm : ScoredState}
    (hmem : fm ∈ openL)
    (h : (stlist openL ++ stlist closedL).Nodup) :
    (stlist (openL.erase fm) ++ stlist (closedL ++ [fm])).Nodup := by
  have hperm : List.Perm (stlist openL)
      (fm.state :: stlist (openL.erase fm)) :=
    (List.perm_cons_erase hmem).map ScoredState.state
  have hsrc : (fm.state ::
      (stlist (openL.erase fm) ++ stlist closedL)).Nodup := by
    refine List.Perm.nodup ?_ h
    exact hperm.append_right _
  rw [stlist_append]
  show (stlist (openL.erase fm) ++ (stlist closedL ++ stlist [fm])).Nodup
  have : stlist [fm] = [fm.state] := rfl
  rw [this, ← List.append_assoc]
  refine List.Perm.nodup ?_ hsrc
  exact (List.perm_append_singleton fm.state
    (stlist (openL.erase fm) ++ stlist closedL)).symm

theorem expandLoop_nodup (cfg : SearchCfg) :
    ∀ (cs : List (List Bool)) (openL closedL : List ScoredState)
      (k : ℕ) (m : String),
      (stlist openL ++ stlist closedL).Nodup →
      (stlist (expandLoop cfg cs openL closedL k m).1 ++
        stlist closedL).Nodup := by
  intro cs
  induction cs with
  | nil => intro openL closedL k m h; exact h
  | cons c rest ih =>
    intro openL closedL k m h
    by_cases hp : c ∈ stlist openL ∨ c ∈ stlist closedL
    · simp only [expandLoop, if_pos hp]
      exact ih openL closedL k m h
    · simp only [expandLoop, if_neg hp]
      push_neg at hp
      apply ih
      have he : stlist (openL ++
          [⟨c, .val (cfg.evF c m).1, .val (cfg.evF c m).2.1⟩]) =
          stlist openL ++ [c] := by
        rw [stlist_append]; rfl
      rw [he, List.append_assoc]
      show (stlist openL ++ (c :: stlist closedL)).Nodup
      rw [List.nodup_middle]
      exact List.nodup_cons.mpr ⟨by simp [hp.1, hp.2], h⟩

theorem expandLoop_evaluated (cfg : SearchCfg) :
    ∀ (cs : List (List Bool)) (openL closedL : List ScoredState)
      (k : ℕ) (m : String), cs.Nodup →
      (expandLoop cfg cs openL closedL k m).2.2.2.map Prod.snd =
        cs.filter (fun c => !(decide (c ∈ stlist openL) ||
          decide (c ∈ stlist closedL))) := by
  intro cs
  induction cs with
  | nil => intro openL closedL k m _; rfl
  | cons c rest ih =>
    intro openL closedL k m hn
    rw [List.nodup_cons] at hn
    by_cases hp : c ∈ stlist openL ∨ c ∈ stlist closedL
    · simp only [expandLoop, if_pos hp]
      rw [ih openL closedL k m hn.2]
      have hpc : (!(decide (c ∈ stlist openL) ||
          decide (c ∈ stlist closedL))) = false := by
        simp only [Bool.not_eq_false', Bool.or_eq_true, decide_eq_true_eq]
        exact hp
      rw [List.filter_cons, hpc]
      simp
    · simp only [expandLoop, if_neg hp]
      push_neg at hp
      simp only [List.map_cons]
      have hih := ih (openL ++
          [(⟨c, PyFloat.val (cfg.evF c m).1,
            PyFloat.val (cfg.evF c m).2.1⟩ : ScoredState)])
        closedL (k + 1) (cfg.evF c m).2.2 hn.2
      rw [hih]
      have hcongr : rest.filter (fun x => !(decide (x ∈ stlist (openL ++
          [⟨c, .val (cfg.evF c m).1, .val (cfg.evF c m).2.1⟩])) ||
          decide (x ∈ stlist closedL))) =
          rest.filter (fun x => !(decide (x ∈ stlist openL) ||
            decide (x ∈ stlist closedL))) := by
        refine List.filter_congr ?_
        intro x hx
        have hne : x ≠ c := fun hxc => hn.1 (hxc ▸ hx)
        have hiff : x ∈ stlist (openL ++
            [⟨c, .val (cfg.evF c m).1, .val (cfg.evF c m).2.1⟩]) ↔
            x ∈ stlist openL := by
          rw [stlist_append]
          show x ∈ stlist openL ++ [c] ↔ _
          simp [hne]
        rw [decide_eq_decide.mpr hiff]
      rw [hcongr]
      have hpc : (!(decide (c ∈ stlist openL) ||
          decide (c ∈ stlist closedL))) = true := by
        simp only [Bool.not_eq_true', Bool.or_eq_false_iff,
          decide_eq_false_iff_not]
        exact hp
      rw [List.filter_cons, hpc]
      simp

theorem pstep_nodup (cfg : SearchCfg) (p : PState)
    (h : (stlist (p.openList ++ p.closedList)).Nodup) :
    (stlist ((pstep cfg p).openList ++ (pstep cfg p).closedList)).Nodup := by
  cases hfm : find_max_state p.openList with
  | none => rw [pstep_of_none cfg p hfm]; exact h
  | some fm =>
    obtain ⟨ho, hc, -⟩ := pstep_open_closed cfg p fm hfm
    rw [stlist_append, ho, hc]
    rw [stlist_append] at h
    exact expandLoop_nodup cfg _ _ _ _ _
      (moved_nodup (find_max_state_mem hfm) h)

theorem runP_nodup (cfg : SearchCfg) :
    ∀ (fuel : ℕ) (p : PState),
      (stlist (p.openList ++ p.closedList)).Nodup →
      (stlist ((runP cfg fuel p).openList ++
        (runP cfg fuel p).closedList)).Nodup := by
  intro fuel
  induction fuel with
  | zero => intro p h; exact h
  | succ n ih =>
    intro p h
    by_cases hg : searchGuard cfg p = true
    · show (stlist ((if searchGuard cfg p then runP cfg n (pstep cfg p)
        else p).openList ++ (if searchGuard cfg p then
          runP cfg n (pstep cfg p) else p).closedList)).Nodup
      rw [hg, if_pos rfl]
      exact ih (pstep cfg p) (pstep_nodup cfg p h)
    · rw [Bool.not_eq_true] at hg
      show (stlist ((if searchGuard cfg p then runP cfg n (pstep cfg p)
        else p).openList ++ (if searchGuard cfg p then
          runP cfg n (pstep cfg p) else p).closedList)).Nodup
      rw [hg]
      simpa using h

/-! ## Claim C6 -/

/-- C6: starting from any loop state without duplicate state vectors (the
initial state in particular), no point of the run ever has two scored states
with equal vectors across `open_list ++ closed_list`; and within one
iteration, the children actually evaluated (sent to the oracle) are exactly
the generated neighbors not already present by value in either list -
neighbors already present are skipped without an oracle call. -/
theorem c6_no_duplicate_states (cfg : SearchCfg) (fuel : ℕ) (p : PState)
    (h : (stlist (p.openList ++ p.closedList)).Nodup) :
    (stlist ((runP cfg fuel p).openList ++
      (runP cfg fuel p).closedList)).Nodup ∧
    (∀ (n : ℕ) (metric : String),
      (stlist ((initSearch n metric).openList ++
        (initSearch n metric).closedList)).Nodup) ∧
    (∀ fm, find_max_state p.openList = some fm →
      (pstepFull cfg p).2.map Prod.snd =
        (expand_state fm.state).filter
          (fun c => !(decide (c ∈ stlist (p.openList.erase fm)) ||
            decide (c ∈ stlist (p.closedList ++ [fm]))))) := by
  refine ⟨runP_nodup cfg fuel p h, ?_, ?_⟩
  · intro n metric
    simp [initSearch, stlist]
  · intro fm hfm
    obtain ⟨-, -, hev⟩ := pstep_open_closed cfg p fm hfm
    rw [hev]
    exact expandLoop_evaluated cfg _ _ _ _ _ (expand_state_nodup fm.state)

/-- Witness for `c6_no_duplicate_states` on a concrete one-feature search. -/
theorem c6_no_duplicate_states_witness :
    (stlist ((runP cfgW 2 (initSearch 1 metricAcc)).openList ++
      (runP cfgW 2 (initSearch 1 metricAcc)).closedList)).Nodup ∧
    (pstepFull cfgW (initSearch 1 metricAcc)).2.map Prod.snd =
      (expand_state (List.replicate 1 false)).filter
        (fun c => !(decide (c ∈ stlist
            ((initSearch 1 metricAcc).openList.erase
              ⟨List.replicate 1 false, .ninf, .ninf⟩)) ||
          decide (c ∈ stlist ((initSearch 1 metricAcc).closedList ++
            [⟨List.replicate 1 false, .ninf, .ninf⟩])))) :=
  ⟨(c6_no_duplicate_states cfgW 2 (initSearch 1 metricAcc) (by decide)).1,
    (c6_no_duplicate_states cfgW 2 (initSearch 1 metricAcc) (by decide)).2.2
      ⟨List.replicate 1 false, .ninf, .ninf⟩ (by decide)⟩

/-! ## Claim C7 -/

theorem fresh_written (cmds : List String) :
    (processList freshLedger cmds).written = cmds := by
  show (processList ⟨false, [], [], 0, 0, false⟩ cmds).written = cmds
  rw [processList_nonresume]
  simp

theorem replay_fresh_zero (cmds : List String) :
    (processList (resumeLedger cmds) cmds).fresh = 0 ∧
    (processList (resumeLedger cmds) cmds).written = [] := by
  show (processList ⟨true, cmds.reverse, [], 0, 0, false⟩ cmds).fresh = 0 ∧
    (processList ⟨true, cmds.reverse, [], 0, 0, false⟩ cmds).written = []
  rw [processList_replay]
  split
  · exact ⟨rfl, rfl⟩
  · exact ⟨rfl, rfl⟩

/-- C7: replaying the command ledger written by a run (feature search or
node-threshold sweep) against the same initial configuration, with resume
enabled, performs zero fresh command executions, appends nothing new to the
ledger, and reproduces the same best triple (search) / best threshold
(sweep), because the loop trajectory does not depend on the ledger state. -/
theorem c7_ledger_replay (cfg : SearchCfg) (fuel : ℕ) (p : PState)
    (scfg : SweepCfg) (sfuel : ℕ) (s : TState) :
    (runSearch cfg fuel p freshLedger).2.written = traceP cfg fuel p ∧
    (runSearch cfg fuel p (resumeLedger
      (runSearch cfg fuel p freshLedger).2.written)).2.fresh = 0 ∧
    (runSearch cfg fuel p (resumeLedger
      (runSearch cfg fuel p freshLedger).2.written)).2.written = [] ∧
    (runSearch cfg fuel p (resumeLedger
      (runSearch cfg fuel p freshLedger).2.written)).1.best =
      (runSearch cfg fuel p freshLedger).1.best ∧
    (runSweep scfg sfuel s freshLedger).2.written = sweepTrace scfg sfuel s ∧
    (runSweep scfg sfuel s (resumeLedger
      (runSweep scfg sfuel s freshLedger).2.written)).2.fresh = 0 ∧
    (runSweep scfg sfuel s (resumeLedger
      (runSweep scfg sfuel s freshLedger).2.written)).2.written = [] ∧
    (runSweep scfg sfuel s (resumeLedger
      (runSweep scfg sfuel s freshLedger).2.written)).1.bestThreshold =
      (runSweep scfg sfuel s freshLedger).1.bestThreshold := by
  have hT : (runSearch cfg fuel p freshLedger).2.written =
      traceP cfg fuel p := fresh_written (traceP cfg fuel p)
  have hS : (runSweep scfg sfuel s freshLedger).2.written =
      sweepTrace scfg sfuel s := fresh_written (sweepTrace scfg sfuel s)
  refine ⟨hT, ?_, ?_, rfl, hS, ?_, ?_, rfl⟩
  · rw [hT]
    exact (replay_fresh_zero (traceP cfg fuel p)).1
  · rw [hT]
    exact (replay_fresh_zero (traceP cfg fuel p)).2
  · rw [hS]
    exact (replay_fresh_zero (sweepTrace scfg sfuel s)).1
  · rw [hS]
    exact (replay_fresh_zero (sweepTrace scfg sfuel s)).2
